import Mathlib

/-!
Verification development for the avito listing scraper (`src/avito.py`).

The Python source is shallowly embedded: pure helpers become Lean functions
over `String` / `List Char`; the external collaborators (HTTP fetch, the
Selenium session, `datetime.fromisoformat`, BeautifulSoup queries) are
abstracted as explicit inputs (functions / pre-queried document structures),
exactly as the spec treats them (external collaborators, out of scope).
Machine integers do not occur: Python integers are unbounded, so `Nat`/`Int`
model them directly.
-/

namespace Avito

/-! ## Configuration constants (`avito.py`, CONFIG section) -/

def BASE_URL : String := "https://www.avito.ma"

def LISTING_URL : String := "https://www.avito.ma/fr/maroc/immobilier"

def MAX_PAGES : Nat := 10

def MAX_LINKS : Nat := 300

/-! ## Text normalizer (`clean_text`)

`clean_text(value)`: `if not value: return ""`, then replace `\n`, `\r`, `\t`
by spaces, collapse every whitespace run (`re.sub(r"\s+", " ", ...)`) to a
single space, and strip leading/trailing whitespace.  A Python `None` or
absent value is modelled as `Option.none`; an empty string is falsy in
Python, which the embedding reproduces.  Whitespace is modelled as the six
ASCII whitespace characters matched by `\s` / `str.strip` on ASCII input. -/

def pyIsSpace (c : Char) : Bool :=
  c = ' ' || c = '\t' || c = '\n' || c = '\r' || c = '\x0b' || c = '\x0c'

/-- The three explicit `str.replace` calls of `clean_text`. -/
def replNRT (c : Char) : Char :=
  if c = '\n' || c = '\r' || c = '\t' then ' ' else c

/-- `re.sub(r"\s+", " ", value)`: each maximal whitespace run becomes one
space. -/
def collapseWS : List Char → List Char
  | [] => []
  | [c] => if pyIsSpace c then [' '] else [c]
  | c1 :: c2 :: rest =>
    if pyIsSpace c1 then
      if pyIsSpace c2 then collapseWS (c2 :: rest)
      else ' ' :: collapseWS (c2 :: rest)
    else c1 :: collapseWS (c2 :: rest)

/-- `str.strip()`: drop leading and trailing whitespace. -/
def stripList (l : List Char) : List Char :=
  ((l.dropWhile pyIsSpace).reverse.dropWhile pyIsSpace).reverse

def pyStrip (s : String) : String :=
  String.mk (stripList s.data)

def clean_text : Option String → String
  | none => ""
  | some v =>
    if v = "" then ""
    else String.mk (stripList (collapseWS (v.data.map replNRT)))

/-! ## Dynamic content stabilizer poll (`fetch_page_with_selenium`)

The equipment-count poll:
```
prev_count = 0
for _ in range(10):
    curr_count = len(equip_imgs)           # sample i-th poll
    if curr_count > 0 and curr_count == prev_count:
        break
    prev_count = curr_count
    time.sleep(0.2)
```
The DOM samples are abstracted as a count sequence `counts : Nat → Nat`
(`counts i` is the count observed at the `(i+1)`-st poll).  The function
returns the number of polls performed and the last sampled count. -/

def stabilizeAux (counts : Nat → Nat) : Nat → Nat → Nat → Nat × Nat
  | 0, i, prev => (i, prev)
  | fuel + 1, i, prev =>
    let curr := counts i
    if 0 < curr ∧ curr = prev then (i + 1, curr)
    else stabilizeAux counts fuel (i + 1) curr

def stabilize_poll (counts : Nat → Nat) : Nat × Nat :=
  stabilizeAux counts 10 0 0

/-- The `prev_count` value the code compares against at the `(k+1)`-st poll:
`0` before the first poll, the previous sample afterwards. -/
def prevCount (counts : Nat → Nat) : Nat → Nat
  | 0 => 0
  | k + 1 => counts k

/-- The loop's break condition at the `(k+1)`-st poll. -/
def haltCond (counts : Nat → Nat) (k : Nat) : Prop :=
  0 < counts k ∧ counts k = prevCount counts k

instance haltCondDec (counts : Nat → Nat) (k : Nat) : Decidable (haltCond counts k) := by
  unfold haltCond; infer_instance

/-- The sampled count sequence `[0, 2, 2, 2, ...]` from the spec's
stabilizer fixed-point test. -/
def seq022 : Nat → Nat := fun k => if k = 0 then 0 else 2

/-! ## Link discoverer (`get_links`)

The per-anchor processing of one listing page:
```
for a in soup.find_all("a", href=True):
    href = a["href"]
    if href.startswith("/"):
        href = urljoin(BASE_URL, href)
    if re.search(r"_\d+\.htm$", href):
        href = href.split("?")[0]
        if href not in links:
            links.append(href)
            new_found += 1
    if len(links) >= MAX_LINKS:
        break
```
and the page loop fetches `?o=page` for `page = 1..MAX_PAGES`, aborting on a
fetch error and stopping early when a page contributed zero new links.
Anchors are modelled as their `href` strings; a page fetch is an abstract
`fetch : Nat → Option (List String)` (`none` = transport failure, `some hs`
= the page's anchor targets in document order). -/

def strStartsWith (s p : String) : Bool :=
  p.data.isPrefixOf s.data

/-- `urljoin(BASE_URL, href)` for the hrefs the code resolves: a
protocol-relative `//host/...` target keeps the base scheme, any other
root-relative `/...` target is appended to the base's scheme+host.  Targets
not starting with `/` are left untouched by the code. -/
def resolveHref (href : String) : String :=
  if strStartsWith href "//" then "https:" ++ href
  else if strStartsWith href "/" then BASE_URL ++ href
  else href

/-- After `'.'`, `'h'`, `'t'`, `'m'` (reversed) were consumed: one or more
digits, then `'_'`. -/
def revDigitsUnderscore : List Char → Bool
  | [] => false
  | '_' :: _ => true
  | c :: rest => c.isDigit && revDigitsUnderscore rest

/-- `re.search(r"_\d+\.htm$", s)`: the string ends with `_`, one or more
digits, `.htm`.  Decided on the reversed character list. -/
def matchesDetailPattern (s : String) : Bool :=
  match s.data.reverse with
  | 'm' :: 't' :: 'h' :: '.' :: c :: rest => c.isDigit && revDigitsUnderscore rest
  | _ => false

/-- `href.split("?")[0]`: the prefix before the first `'?'`. -/
def stripQuery (s : String) : String :=
  String.mk (s.data.takeWhile (fun c => c ≠ '?'))

/-- One listing page's anchor scan; returns the grown link list and
`new_found`.  The `len(links) >= MAX_LINKS` check runs after each anchor is
processed, not before. -/
def scanPage (maxLinks : Nat) : List String → List String → Nat → List String × Nat
  | [], links, nf => (links, nf)
  | a :: rest, links, nf =>
    let h := resolveHref a
    let step : List String × Nat :=
      if matchesDetailPattern h then
        let h2 := stripQuery h
        if h2 ∈ links then (links, nf) else (links ++ [h2], nf + 1)
      else (links, nf)
    if maxLinks ≤ step.1.length then step
    else scanPage maxLinks rest step.1 step.2

/-- The page loop, with `fuel` pages left starting at index `page`.  Returns
the collected links and the number of pages on which a fetch was attempted
from this state on. -/
def getLinksGo (fetch : Nat → Option (List String)) (maxLinks : Nat) :
    Nat → Nat → List String → List String × Nat
  | _, 0, links => (links, 0)
  | page, fuel + 1, links =>
    match fetch page with
    | none => (links, 1)
    | some anchors =>
      let s := scanPage maxLinks anchors links 0
      if s.2 = 0 then (s.1, 1)
      else
        let r := getLinksGo fetch maxLinks (page + 1) fuel s.1
        (r.1, r.2 + 1)

/-- `get_links()`, generalized over the configuration constants as the spec's
`discoverLinks(maxPages, maxLinks)`; the source instance is
`get_links fetch MAX_PAGES MAX_LINKS`. -/
def get_links (fetch : Nat → Option (List String)) (maxPages maxLinks : Nat) :
    List String × Nat :=
  getLinksGo fetch maxLinks 1 maxPages []

/-- The spec's fabricated discovery page: three anchors, one qualifying
detail link appearing with and without a query string, one non-matching
anchor. -/
def examplePageAnchors : List String :=
  ["/fr/maroc/a_12345.htm?x=1", "/fr/maroc/a_12345.htm", "/fr/maroc/other"]

/-! ## Temporal resolver (`parse_publication_date`)

Python naive datetimes are modelled as seconds counted from the Unix epoch
(`Int`, since Python integers and `timedelta` arithmetic are unbounded),
with the proleptic Gregorian civil-date conversion used to format them.
`datetime` values are bounded (`datetime.MINYEAR = 1`,
`datetime.MAXYEAR = 9999`); subtracting a `timedelta` that leaves that
range raises `OverflowError`, which the code's bare `except` turns into
returning the normalized text. -/

/-- Civil date of day number `z` (day 0 = 1970-01-01), proleptic Gregorian:
`(year, month, day)`. -/
def civilFromDays (z0 : Int) : Int × Nat × Nat :=
  let z : Int := z0 + 719468
  let era : Int := Int.fdiv z 146097
  let doe : Nat := (z - era * 146097).toNat
  let yoe : Nat := (doe - doe / 1460 + doe / 36524 - doe / 146096) / 365
  let y : Int := Int.ofNat yoe + era * 400
  let doy : Nat := doe - (365 * yoe + yoe / 4 - yoe / 100)
  let mp : Nat := (5 * doy + 2) / 153
  let d : Nat := doy - (153 * mp + 2) / 5 + 1
  let m : Nat := if mp < 10 then mp + 3 else mp - 9
  (if m ≤ 2 then y + 1 else y, m, d)

/-- Day number of the civil date `y-m-d` (inverse of `civilFromDays`). -/
def daysFromCivil (y0 : Int) (m d : Nat) : Int :=
  let y : Int := if m ≤ 2 then y0 - 1 else y0
  let era : Int := Int.fdiv y 400
  let yoe : Nat := (y - era * 400).toNat
  let mp : Nat := if 2 < m then m - 3 else m + 9
  let doy : Nat := (153 * mp + 2) / 5 + d - 1
  let doe : Nat := yoe * 365 + yoe / 4 - yoe / 100 + doy
  era * 146097 + Int.ofNat doe - 719468

/-- Seconds-since-epoch of `y-m-d hh:mm:ss`. -/
def secondsOfCivil (y : Int) (m d hh mm ss : Nat) : Int :=
  daysFromCivil y m d * 86400 + (hh * 3600 + mm * 60 + ss)

def twoDigits (n : Nat) : String :=
  if n < 10 then "0" ++ toString n else toString n

/-- `dt.strftime("%Y-%m-%d %H:%M:%S")` (glibc `%Y` prints the year without
padding, which only matters below year 1000; `%m`/`%d`/`%H`/`%M`/`%S` are
zero-padded to two digits). -/
def fmtDateTime (secs : Int) : String :=
  let days : Int := Int.fdiv secs 86400
  let sod : Nat := (secs - days * 86400).toNat
  let ymd := civilFromDays days
  toString ymd.1.toNat ++ "-" ++ twoDigits ymd.2.1 ++ "-" ++ twoDigits ymd.2.2 ++ " " ++
    twoDigits (sod / 3600) ++ ":" ++ twoDigits (sod % 3600 / 60) ++ ":" ++ twoDigits (sod % 60)

/-- `datetime.min` in seconds: 0001-01-01 00:00:00. -/
def pyDatetimeMin : Int := daysFromCivil 1 1 1 * 86400

/-- `datetime.max` in whole seconds: 9999-12-31 23:59:59. -/
def pyDatetimeMax : Int := daysFromCivil 9999 12 31 * 86400 + 86399

def inPyRange (secs : Int) : Prop := pyDatetimeMin ≤ secs ∧ secs ≤ pyDatetimeMax

instance inPyRangeDec (secs : Int) : Decidable (inPyRange secs) := by
  unfold inPyRange; infer_instance

/-- `now - timedelta(...)` followed by `strftime` inside the `try`: an
out-of-range result raises `OverflowError` and the `except` returns the
normalized text instead. -/
def fmtOrText (text : String) (secs : Int) : String :=
  if inPyRange secs then fmtDateTime secs else text

/-- Substring test (Python's `sub in s`) on character lists. -/
def hasSub (sub : List Char) : List Char → Bool
  | [] => sub.isEmpty
  | c :: rest => sub.isPrefixOf (c :: rest) || hasSub sub rest

def containsStr (s sub : String) : Bool :=
  hasSub sub.data s.data

/-- `re.search(r"\d+", text)` + `int(...)`: the first maximal digit run as a
number, if any. -/
def firstNat (s : String) : Option Nat :=
  firstNatAux s.data
where
  firstNatAux : List Char → Option Nat
    | [] => none
    | c :: rest =>
      if c.isDigit then
        some (((c :: rest.takeWhile Char.isDigit).map (fun d => d.toNat - 48)).foldl
          (fun acc d => 10 * acc + d) 0)
      else firstNatAux rest

/-- Python `str.lower()` (per character; the source text is ASCII French
unit words, where this agrees with Unicode lowercasing). -/
def pyLower (s : String) : String :=
  String.mk (s.data.map Char.toLower)

/-- The relative-time fallback branch of `parse_publication_date`, with
`datetime.now()` passed explicitly as seconds-since-epoch. -/
def relative_fallback (now : Int) (rawText : String) : String :=
  let text := pyLower (clean_text (some rawText))
  let n : Int := Int.ofNat ((firstNat text).getD 1)
  if containsStr text "minute" then fmtOrText text (now - n * 60)
  else if containsStr text "heure" then fmtOrText text (now - n * 3600)
  else if containsStr text "jour" then fmtOrText text (now - n * 86400)
  else if containsStr text "mois" then fmtOrText text (now - n * 30 * 86400)
  else if containsStr text "an" then fmtOrText text (now - n * 365 * 86400)
  else text

/-- A `<time>` element: its `datetime` attribute (if present) and its
visible text. -/
structure TimeTag where
  datetimeAttr : Option String
  text : String
  deriving DecidableEq

/-- `parse_publication_date(soup)`.  The `<time>` lookup is pre-queried
(`none` = absent).  `datetime.fromisoformat` is an external stdlib
collaborator, abstracted as `fromIso : String → Option Int` returning naive
seconds-since-epoch (`none` = parse failure); the code strips the timezone,
formats on success and falls through to the text path on failure. -/
def parse_publication_date (fromIso : String → Option Int) (now : Int)
    (timeTag : Option TimeTag) : String :=
  match timeTag with
  | none => ""
  | some tag =>
    match tag.datetimeAttr with
    | some attr =>
      match fromIso (attr.replace "Z" "+00:00") with
      | some dt => fmtDateTime dt
      | none => relative_fallback now tag.text
    | none => relative_fallback now tag.text

/-! ## Record extractor (`parse_publication`)

BeautifulSoup is the external HTML-query collaborator; a parsed document is
modelled by the results of the fixed queries `parse_publication` issues
(each `find` result is the matched element's text, `none` when the selector
matched nothing).  `uuid.uuid4()` is an external source of fresh
identifiers, passed in as `freshId`. -/

/-- The `<span>` whose text matches `Cat[eé]gorie`, when found:
`find_next("span")`'s text, if any. -/
structure CatLabel where
  nextSpan : Option String
  deriving DecidableEq

structure Soup where
  /-- text of `soup.find("h1")` -/
  h1 : Option String
  /-- text of `soup.find("p", class_=re.compile("sc-16573058-12"))` -/
  priceEl : Option String
  /-- text of `soup.find("span", class_=re.compile("sc-16573058-17"))` -/
  locEl : Option String
  /-- `soup.find("time")` -/
  timeTag : Option TimeTag
  /-- text of `soup.find(attrs={"data-testid": "SellerName"})` -/
  sellerEl : Option String
  /-- `soup.find("span", string=re.compile(r"Cat[eé]gorie", re.I))` -/
  catLabel : Option CatLabel
  /-- text of `soup.find("div", class_=re.compile("sc-9bb253d7-0"))` -/
  descEl : Option String
  /-- the `<li>` texts of `soup.find("ol")` -/
  firstOl : Option (List String)
  /-- per property block `div.sc-cd1c365e-1`: (`span.fjZBup` text, `span.bXFCIH` text) -/
  propBlocks : List (Option String × Option String)
  /-- the `src` attribute of each `<img>` of the document, in order -/
  imgSrcs : List (Option String)

/-- The document with every optional marker missing. -/
def emptySoup : Soup :=
  { h1 := none, priceEl := none, locEl := none, timeTag := none, sellerEl := none,
    catLabel := none, descEl := none, firstOl := none, propBlocks := [], imgSrcs := [] }

/-- `ListingRecord` (spec §3), structured; the persistence boundary
serializes the four structured fields (§4.5 stores them JSON-encoded in the
row dict, which `save_csv` writes verbatim). -/
structure ListingRecord where
  id : String
  url : String
  title : String
  price : String
  location : String
  publication_time : String
  seller : String
  category : String
  description : String
  breadcrumb : List String
  properties : List (String × String)
  equipments : List String
  images : List String
  deriving DecidableEq

/-- Breadcrumb extraction: each `<li>` text is normalized, the literal
`Home Icon` placeholder removed and the result stripped; empty items are
dropped, order preserved. -/
def breadcrumbOf (firstOl : Option (List String)) : List String :=
  match firstOl with
  | none => []
  | some lis =>
    (lis.map (fun li => pyStrip ((clean_text (some li)).replace "Home Icon" ""))).filter
      (fun t => t ≠ "")

/-- Python `dict` insertion: a later duplicate key overwrites the value but
keeps the key's first position. -/
def dictInsert (m : List (String × String)) (k v : String) : List (String × String) :=
  if m.any (fun p => p.1 = k) then m.map (fun p => if p.1 = k then (k, v) else p)
  else m ++ [(k, v)]

/-- Property extraction: a block contributes iff both its value and label
sub-elements were found. -/
def propsOf (blocks : List (Option String × Option String)) : List (String × String) :=
  blocks.foldl
    (fun m b =>
      match b with
      | (some v, some l) => dictInsert m (clean_text (some l)) (clean_text (some v))
      | _ => m)
    []

/-- Image extraction: keep each truthy `src` containing the asset-host
marker and not the thumbnail marker, first occurrence only. -/
def imagesOf (srcs : List (Option String)) : List String :=
  srcs.foldl
    (fun acc s =>
      match s with
      | some src =>
        if src ≠ "" && containsStr src "content.avito.ma" &&
            !containsStr src "?t=card" && !(src ∈ acc) then
          acc ++ [src]
        else acc
      | none => acc)
    []

/-- `parse_publication` after a successful page fetch (the `if not html`
guard is the orchestrator's no-data outcome, modelled in `LinkOutcome`). -/
def parse_publication (fromIso : String → Option Int) (now : Int)
    (freshId url : String) (soup : Soup) (equipments : List String) : ListingRecord :=
  { id := freshId
    url := url
    title := match soup.h1 with | some t => clean_text (some t) | none => ""
    price := match soup.priceEl with | some t => clean_text (some t) | none => ""
    location := match soup.locEl with | some t => clean_text (some t) | none => ""
    publication_time := parse_publication_date fromIso now soup.timeTag
    seller := match soup.sellerEl with | some t => clean_text (some t) | none => ""
    category :=
      match soup.catLabel with
      | some cl => match cl.nextSpan with | some t => clean_text (some t) | none => ""
      | none => ""
    description := match soup.descEl with | some t => clean_text (some t) | none => ""
    breadcrumb := breadcrumbOf soup.firstOl
    properties := propsOf soup.propBlocks
    equipments := equipments
    images := imagesOf soup.imgSrcs }

/-! ## Persistence (`save_csv`)

`csv.DictWriter(f, fieldnames=keys, quoting=QUOTE_ALL)`: the header row is
`keys`, and every record row is the record's value for each key, in key
order.  The structured fields were stored in the row dict as their
`json.dumps(..., ensure_ascii=False)` encodings. -/

def hexDigit (n : Nat) : Char :=
  if n < 10 then Char.ofNat (48 + n) else Char.ofNat (87 + n)

/-- `json.dumps` escaping of one character inside a string literal. -/
def jsonEscChar (c : Char) : String :=
  if c = '"' then "\\\""
  else if c = '\\' then "\\\\"
  else if c = '\n' then "\\n"
  else if c = '\r' then "\\r"
  else if c = '\t' then "\\t"
  else if c = '\x08' then "\\b"
  else if c = '\x0c' then "\\f"
  else if c.toNat < 32 then "\\u00" ++ String.mk [hexDigit (c.toNat / 16), hexDigit (c.toNat % 16)]
  else String.mk [c]

def jsonStrLit (s : String) : String :=
  "\"" ++ String.join (s.data.map jsonEscChar) ++ "\""

/-- `json.dumps(list_of_strings, ensure_ascii=False)`. -/
def jsonArr (xs : List String) : String :=
  "[" ++ String.intercalate ", " (xs.map jsonStrLit) ++ "]"

/-- `json.dumps(dict_of_strings, ensure_ascii=False)`. -/
def jsonObj (ps : List (String × String)) : String :=
  "\x7b" ++ String.intercalate ", " (ps.map (fun p => jsonStrLit p.1 ++ ": " ++ jsonStrLit p.2)) ++
    "\x7d"

/-- The `keys` list of `save_csv`, verbatim from the source. -/
def csvKeys : List String :=
  ["id", "url", "title", "price", "location",
   "publication_time", "breadcrumb", "category",
   "seller", "description", "properties", "equipments", "images"]

/-- The row dict's value under one key (the structured fields were stored
JSON-serialized by `parse_publication`). -/
def recordField (r : ListingRecord) : String → String
  | "id" => r.id
  | "url" => r.url
  | "title" => r.title
  | "price" => r.price
  | "location" => r.location
  | "publication_time" => r.publication_time
  | "breadcrumb" => jsonArr r.breadcrumb
  | "category" => r.category
  | "seller" => r.seller
  | "description" => r.description
  | "properties" => jsonObj r.properties
  | "equipments" => jsonArr r.equipments
  | "images" => jsonArr r.images
  | _ => ""

/-- `save_csv(data_list)` as the rows it writes: the header, then one row
per record with the values in `csvKeys` order. -/
def save_csv (rows : List ListingRecord) : List (List String) :=
  csvKeys :: rows.map (fun r => csvKeys.map (recordField r))

/-- Modelled from the spec: the §3 attribute order, which §6 declares to be
the persistence field order — identifier, source URL, title, price,
location, publication timestamp, seller, category, description, breadcrumb,
properties, equipments, images. -/
def specFieldOrder : List String :=
  ["id", "url", "title", "price", "location",
   "publication_time", "seller", "category",
   "description", "breadcrumb", "properties", "equipments", "images"]

/-! ## Pipeline orchestrator (`main`)

Per-link processing (`parse_publication` behind the per-link `try`) has
three observable outcomes: an exception (`err`, the link is skipped), a
`None` result (`noData`, nothing appended), or a record (`ok`, appended).
`main` creates the driver only when links were found, runs the loop under
`try`/`finally driver.quit()` (every per-link exception is caught inside the
loop, so the single normal exit path closes the driver exactly once) and
then calls `save_csv(results)`. -/

inductive LinkOutcome (ρ : Type) where
  | err
  | noData
  | ok (r : ρ)

/-- The `for i, link in enumerate(links)` loop: append each successful
record in link order. -/
def collectRecords {α ρ : Type} (process : α → LinkOutcome ρ) : List α → List ρ
  | [] => []
  | l :: rest =>
    match process l with
    | .ok r => r :: collectRecords process rest
    | _ => collectRecords process rest

/-- Observable trace of one `main()` run. -/
structure RunTrace (ρ : Type) where
  records : List ρ
  sessionsOpened : Nat
  sessionsClosed : Nat
  /-- the argument of each `save_csv` call, in call order -/
  persistedSets : List (List ρ)
  deriving DecidableEq

/-- `main()`: zero links returns before any driver or `save_csv`; otherwise
one driver is created, the loop runs, `finally` closes the driver once, and
`save_csv` is called once with the collected records. -/
def mainRun {α ρ : Type} (links : List α) (process : α → LinkOutcome ρ) : RunTrace ρ :=
  match links with
  | [] => { records := [], sessionsOpened := 0, sessionsClosed := 0, persistedSets := [] }
  | _ :: _ =>
    let results := collectRecords process links
    { records := results, sessionsOpened := 1, sessionsClosed := 1,
      persistedSets := [results] }

/-- The end-to-end scenario of the spec: 3 links, processing of link 2
fails, links 1 and 3 extract records `10` and `30`. -/
def proc2fails : Nat → LinkOutcome Nat :=
  fun n => if n = 2 then LinkOutcome.err else LinkOutcome.ok (10 * n)

/-- A concrete record with pairwise distinct field values, for exercising
the persistence row layout. -/
def sampleRec : ListingRecord :=
  { id := "i", url := "u", title := "t", price := "p", location := "l",
    publication_time := "pt", seller := "s", category := "c", description := "d",
    breadcrumb := ["b"], properties := [("k", "v")], equipments := ["e"], images := ["m"] }

/-- Modelled from the spec: a record row serialized in the §3 attribute
order (`specFieldOrder`). -/
def specRowValues (r : ListingRecord) : List String :=
  specFieldOrder.map (recordField r)

/-! # Helper lemmas -/

theorem stabilizeAux_fst_le (counts : Nat → Nat) :
    ∀ fuel i prev, (stabilizeAux counts fuel i prev).1 ≤ i + fuel := by
  intro fuel
  induction fuel with
  | zero => intro i prev; simp [stabilizeAux]
  | succ f ih =>
    intro i prev
    simp only [stabilizeAux]
    split
    · show i + 1 ≤ i + (f + 1)
      omega
    · have h := ih (i + 1) (counts i)
      omega

theorem stabilizeAux_halt (counts : Nat → Nat) :
    ∀ fuel i k, i ≤ k → k < i + fuel → haltCond counts k →
      (∀ j, i ≤ j → j < k → ¬ haltCond counts j) →
      stabilizeAux counts fuel i (prevCount counts i) = (k + 1, counts k) := by
  intro fuel
  induction fuel with
  | zero => intro i k h1 h2 _ _; omega
  | succ f ih =>
    intro i k hik hk hhalt hmin
    by_cases hki : k = i
    · subst hki
      have hc : 0 < counts k ∧ counts k = prevCount counts k := hhalt
      simp only [stabilizeAux]
      rw [if_pos hc]
    · have hlt : i < k := lt_of_le_of_ne hik (fun h => hki h.symm)
      have hc : ¬ (0 < counts i ∧ counts i = prevCount counts i) := hmin i le_rfl hlt
      simp only [stabilizeAux]
      rw [if_neg hc]
      exact ih (i + 1) k hlt (by omega) hhalt (fun j h1 h2 => hmin j (by omega) h2)

theorem stabilizeAux_nohalt (counts : Nat → Nat) :
    ∀ fuel i, 0 < fuel → (∀ j, i ≤ j → j < i + fuel → ¬ haltCond counts j) →
      stabilizeAux counts fuel i (prevCount counts i) = (i + fuel, counts (i + fuel - 1)) := by
  intro fuel
  induction fuel with
  | zero => intro i h; omega
  | succ f ih =>
    intro i _ hno
    have hc : ¬ (0 < counts i ∧ counts i = prevCount counts i) := hno i le_rfl (by omega)
    simp only [stabilizeAux]
    rw [if_neg hc]
    cases f with
    | zero => simp [stabilizeAux]
    | succ f' =>
      have h := ih (i + 1) (Nat.succ_pos _) (fun j h1 h2 => hno j (by omega) (by omega))
      have e1 : i + 1 + (f' + 1) = i + (f' + 1 + 1) := by omega
      rw [e1] at h
      exact h

/-! # Claims -/

/-- C1: the equipment-count stabilization poll runs at most 10 attempts;
it halts at the first attempt whose count is nonzero and equal to the
previous attempt's count, and otherwise only at the bound; on the sampled
sequence `[0,2,2]` it halts at the third poll with count 2, and on any
strictly increasing sequence it halts only at the 10-poll bound. -/
theorem claim_C1_stabilization_fixed_point :
    (∀ counts : Nat → Nat, (stabilize_poll counts).1 ≤ 10) ∧
    (∀ counts : Nat → Nat, ∀ k, k < 10 → haltCond counts k →
      (∀ j, j < k → ¬ haltCond counts j) →
      stabilize_poll counts = (k + 1, counts k)) ∧
    (∀ counts : Nat → Nat, (∀ k, k < 10 → ¬ haltCond counts k) →
      stabilize_poll counts = (10, counts 9)) ∧
    stabilize_poll seq022 = (3, 2) ∧
    (∀ counts : Nat → Nat, StrictMono counts → stabilize_poll counts = (10, counts 9)) := by
  have noHaltStrict : ∀ counts : Nat → Nat, StrictMono counts →
      ∀ k, k < 10 → ¬ haltCond counts k := by
    intro counts hmono k _ hhalt
    obtain ⟨hpos, heq⟩ := hhalt
    cases k with
    | zero => simp [prevCount] at heq; omega
    | succ k' =>
      have hlt := hmono (Nat.lt_succ_self k')
      have heq' : counts (k' + 1) = counts k' := heq
      rw [Nat.succ_eq_add_one] at hlt
      omega
  have bound : ∀ counts : Nat → Nat, (∀ k, k < 10 → ¬ haltCond counts k) →
      stabilize_poll counts = (10, counts 9) := by
    intro counts hno
    have h := stabilizeAux_nohalt counts 10 0 (by omega) (fun j _ hj => hno j (by omega))
    exact h
  refine ⟨fun counts => stabilizeAux_fst_le counts 10 0 0, ?_, bound, by decide, ?_⟩
  · intro counts k hk hhalt hmin
    exact stabilizeAux_halt counts 10 0 k (Nat.zero_le k) (by omega) hhalt
      (fun j _ hj => hmin j hj)
  · intro counts hmono
    exact bound counts (noHaltStrict counts hmono)

/-- Witness for C1: the halting-characterization conjunct applied to the
concrete sequence `[0,2,2]` at poll index 2, and the bound conjunct applied
to a concrete strictly increasing sequence. -/
theorem claim_C1_stabilization_fixed_point_witness :
    stabilize_poll seq022 = (3, 2) ∧ stabilize_poll (fun k => k + 1) = (10, 10) :=
  ⟨claim_C1_stabilization_fixed_point.2.1 seq022 2 (by decide) (by decide)
      (by decide),
    claim_C1_stabilization_fixed_point.2.2.2.2 (fun k => k + 1)
      (fun a b h => Nat.succ_lt_succ h)⟩

theorem collectRecords_eq_filterMap {α ρ : Type} (process : α → LinkOutcome ρ) :
    ∀ links : List α, collectRecords process links =
      links.filterMap (fun l =>
        match process l with | LinkOutcome.ok r => some r | _ => none) := by
  intro links
  induction links with
  | nil => rfl
  | cons l rest ih =>
    simp only [collectRecords, List.filterMap_cons]
    cases process l <;> simp [ih]

/-- C2: per-link failure isolation and guaranteed session release — the run
yields exactly the records of the successful links, in link order; sessions
are closed as often as opened, and a run that processes links closes its
single session exactly once; in the 3-link scenario with link 2 failing,
exactly the records of links 1 and 3 are produced and the session is closed
once. -/
theorem claim_C2_per_link_isolation :
    (∀ (α ρ : Type) (links : List α) (process : α → LinkOutcome ρ),
      (mainRun links process).records =
        links.filterMap (fun l =>
          match process l with | LinkOutcome.ok r => some r | _ => none)) ∧
    (∀ (α ρ : Type) (links : List α) (process : α → LinkOutcome ρ),
      (mainRun links process).sessionsClosed = (mainRun links process).sessionsOpened) ∧
    (∀ (α ρ : Type) (links : List α) (process : α → LinkOutcome ρ), links ≠ [] →
      (mainRun links process).sessionsOpened = 1 ∧
        (mainRun links process).sessionsClosed = 1) ∧
    mainRun [1, 2, 3] proc2fails =
      { records := [10, 30], sessionsOpened := 1, sessionsClosed := 1,
        persistedSets := [[10, 30]] } := by
  refine ⟨?_, ?_, ?_, by decide⟩
  · intro α ρ links process
    cases links with
    | nil => rfl
    | cons l rest => exact collectRecords_eq_filterMap process (l :: rest)
  · intro α ρ links process
    cases links <;> rfl
  · intro α ρ links process hne
    cases links with
    | nil => exact absurd rfl hne
    | cons l rest => exact ⟨rfl, rfl⟩

/-- Witness for C2: the session-release conjunct discharged on the concrete
3-link scenario. -/
theorem claim_C2_per_link_isolation_witness :
    (mainRun [1, 2, 3] proc2fails).sessionsOpened = 1 ∧
      (mainRun [1, 2, 3] proc2fails).sessionsClosed = 1 :=
  claim_C2_per_link_isolation.2.2.1 Nat Nat [1, 2, 3] proc2fails (by decide)

/-- C5 counterexample: a run that discovered zero links returns before
`save_csv`, so the persistence collaborator is never invoked — the claim's
"always invokes ... when zero links were discovered" fails. -/
theorem claim_C5_persist_always_counterexample :
    (mainRun ([] : List Nat) (fun _ => (LinkOutcome.err : LinkOutcome Nat))).persistedSets
      = [] := by
  rfl

/-- C5 amended: every run terminates, and every run that discovered at least
one link invokes the persistence collaborator exactly once, with exactly the
successfully extracted records — including when every link failed, so an
empty record set is persisted then; a run with zero discovered links stops
without invoking persistence. -/
theorem claim_C5_persist_on_nonempty_runs :
    (∀ (α ρ : Type) (links : List α) (process : α → LinkOutcome ρ), links ≠ [] →
      (mainRun links process).persistedSets = [(mainRun links process).records]) ∧
    (∀ (α ρ : Type) (process : α → LinkOutcome ρ),
      (mainRun ([] : List α) process).persistedSets = []) ∧
    (mainRun [1] (fun _ => (LinkOutcome.err : LinkOutcome Nat))).persistedSets = [[]] := by
  refine ⟨?_, fun α ρ process => rfl, by decide⟩
  intro α ρ links process hne
  cases links with
  | nil => exact absurd rfl hne
  | cons l rest => rfl

/-- Witness for C5's amended theorem: the nonempty-links conjunct discharged
on a concrete all-failing run, which persists the empty record set. -/
theorem claim_C5_persist_on_nonempty_runs_witness :
    (mainRun [1] (fun _ => (LinkOutcome.err : LinkOutcome Nat))).persistedSets
      = [(mainRun [1] (fun _ => (LinkOutcome.err : LinkOutcome Nat))).records] :=
  claim_C5_persist_on_nonempty_runs.1 Nat Nat [1]
    (fun _ => (LinkOutcome.err : LinkOutcome Nat)) (by decide)

theorem stripQuery_no_qmark (s : String) : '?' ∉ (stripQuery s).data := by
  intro hmem
  have h := List.mem_takeWhile_imp hmem
  simp at h

theorem scanPage_nodup (maxLinks : Nat) :
    ∀ anchors links nf, links.Nodup → (scanPage maxLinks anchors links nf).1.Nodup := by
  intro anchors
  induction anchors with
  | nil => intro links nf h; exact h
  | cons a rest ih =>
    intro links nf h
    simp only [scanPage]
    by_cases hm : matchesDetailPattern (resolveHref a) = true
    · rw [if_pos hm]
      by_cases hmem : stripQuery (resolveHref a) ∈ links
      · rw [if_pos hmem]
        split
        · exact h
        · exact ih links nf h
      · rw [if_neg hmem]
        have h2 : (links ++ [stripQuery (resolveHref a)]).Nodup := by
          rw [List.nodup_append]
          exact ⟨h, List.nodup_singleton _, by simp [hmem]⟩
        split
        · exact h2
        · exact ih _ _ h2
    · rw [if_neg hm]
      split
      · exact h
      · exact ih links nf h

theorem scanPage_no_qmark (maxLinks : Nat) :
    ∀ anchors links nf, (∀ x ∈ links, '?' ∉ x.data) →
      ∀ x ∈ (scanPage maxLinks anchors links nf).1, '?' ∉ x.data := by
  intro anchors
  induction anchors with
  | nil => intro links nf h; exact h
  | cons a rest ih =>
    intro links nf h
    simp only [scanPage]
    by_cases hm : matchesDetailPattern (resolveHref a) = true
    · rw [if_pos hm]
      by_cases hmem : stripQuery (resolveHref a) ∈ links
      · rw [if_pos hmem]
        split
        · exact h
        · exact ih links nf h
      · rw [if_neg hmem]
        have h2 : ∀ x ∈ links ++ [stripQuery (resolveHref a)], '?' ∉ x.data := by
          intro x hx
          rcases List.mem_append.1 hx with hx | hx
          · exact h x hx
          · rcases List.mem_singleton.1 hx with rfl
            exact stripQuery_no_qmark _
        split
        · exact h2
        · exact ih _ _ h2
    · rw [if_neg hm]
      split
      · exact h
      · exact ih links nf h

theorem scanPage_provenance (maxLinks : Nat) :
    ∀ anchors links nf, ∀ x ∈ (scanPage maxLinks anchors links nf).1,
      x ∈ links ∨ ∃ a ∈ anchors, matchesDetailPattern (resolveHref a) = true ∧
        x = stripQuery (resolveHref a) := by
  intro anchors
  induction anchors with
  | nil => intro links nf x hx; exact Or.inl hx
  | cons a rest ih =>
    intro links nf x hx
    rw [scanPage] at hx
    by_cases hm : matchesDetailPattern (resolveHref a) = true
    · rw [if_pos hm] at hx
      by_cases hmem : stripQuery (resolveHref a) ∈ links
      · rw [if_pos hmem] at hx
        split at hx
        · exact Or.inl hx
        · rcases ih links nf x hx with h | ⟨b, hb, hbm, hbeq⟩
          · exact Or.inl h
          · exact Or.inr ⟨b, List.mem_cons_of_mem a hb, hbm, hbeq⟩
      · rw [if_neg hmem] at hx
        have base : ∀ y, y ∈ links ++ [stripQuery (resolveHref a)] →
            y ∈ links ∨ ∃ b ∈ a :: rest, matchesDetailPattern (resolveHref b) = true ∧
              y = stripQuery (resolveHref b) := by
          intro y hy
          rcases List.mem_append.1 hy with hy | hy
          · exact Or.inl hy
          · rcases List.mem_singleton.1 hy with rfl
            exact Or.inr ⟨a, List.mem_cons_self a rest, hm, rfl⟩
        split at hx
        · exact base x hx
        · rcases ih _ _ x hx with h | ⟨b, hb, hbm, hbeq⟩
          · exact base x h
          · exact Or.inr ⟨b, List.mem_cons_of_mem a hb, hbm, hbeq⟩
    · rw [if_neg hm] at hx
      split at hx
      · exact Or.inl hx
      · rcases ih links nf x hx with h | ⟨b, hb, hbm, hbeq⟩
        · exact Or.inl h
        · exact Or.inr ⟨b, List.mem_cons_of_mem a hb, hbm, hbeq⟩

/-- C3 counterexample: the pattern test runs on the resolved target before
query stripping, and targets not starting with `/` are never resolved — the
anchor `a?b_1.htm` matches the pattern (it ends in `_1.htm`), is stripped at
its first `?`, and the discovery set receives `"a"`: not an absolute URL
(no scheme) and not matching the detail-page pattern. -/
theorem claim_C3_link_invariant_counterexample :
    (scanPage MAX_LINKS ["a?b_1.htm"] [] 0).1 = ["a"] ∧
      matchesDetailPattern "a" = false ∧
      containsStr "a" "://" = false ∧
      strStartsWith "a" BASE_URL = false := by
  decide

/-- C3 amended: `discoverLinks` elements occur exactly once (insertion-
ordered set), contain no query string (no `?` survives stripping at the
first `?`), and each new element is the query-stripped form of an anchor
target — resolved against the site base only when it begins with `/` — that
matched the trailing-numeric-identifier-before-suffix pattern after
resolution but before query stripping (so a query-bearing variant of a
detail URL is excluded rather than normalized, and an unresolved or
query-truncated target may be neither absolute nor pattern-matching).  The
example page `/fr/maroc/a_12345.htm?x=1`, `/fr/maroc/a_12345.htm`,
`/fr/maroc/other` still yields exactly one link, the no-query absolute
form. -/
theorem claim_C3_link_invariant_amended :
    (∀ maxLinks anchors links nf, links.Nodup →
      (scanPage maxLinks anchors links nf).1.Nodup) ∧
    (∀ maxLinks anchors links nf, (∀ x ∈ links, '?' ∉ x.data) →
      ∀ x ∈ (scanPage maxLinks anchors links nf).1, '?' ∉ x.data) ∧
    (∀ maxLinks anchors links nf, ∀ x ∈ (scanPage maxLinks anchors links nf).1,
      x ∈ links ∨ ∃ a ∈ anchors, matchesDetailPattern (resolveHref a) = true ∧
        x = stripQuery (resolveHref a)) ∧
    (scanPage MAX_LINKS examplePageAnchors [] 0).1 =
      ["https://www.avito.ma/fr/maroc/a_12345.htm"] := by
  exact ⟨scanPage_nodup, scanPage_no_qmark, scanPage_provenance, by decide⟩

/-- Witness for C3's amended theorem: uniqueness and query-freeness
discharged on the spec's example page run. -/
theorem claim_C3_link_invariant_amended_witness :
    (scanPage MAX_LINKS examplePageAnchors [] 0).1.Nodup ∧
      ∀ x ∈ (scanPage MAX_LINKS examplePageAnchors [] 0).1, '?' ∉ x.data :=
  ⟨claim_C3_link_invariant_amended.1 MAX_LINKS examplePageAnchors [] 0 List.nodup_nil,
    claim_C3_link_invariant_amended.2.1 MAX_LINKS examplePageAnchors [] 0
      (by intro x hx; cases hx)⟩

theorem scanPage_len_le (maxLinks : Nat) :
    ∀ anchors links nf, (scanPage maxLinks anchors links nf).1.length ≤
      if links.length < maxLinks then maxLinks else links.length + 1 := by
  intro anchors
  induction anchors with
  | nil =>
    intro links nf
    simp only [scanPage]
    split <;> omega
  | cons a rest ih =>
    intro links nf
    simp only [scanPage]
    by_cases hm : matchesDetailPattern (resolveHref a) = true
    · rw [if_pos hm]
      by_cases hmem : stripQuery (resolveHref a) ∈ links
      · rw [if_pos hmem]
        split
        · rename_i hcap
          simp only [] at hcap ⊢
          split <;> omega
        · exact ih links nf
      · rw [if_neg hmem]
        split
        · rename_i hcap
          simp only [List.length_append, List.length_singleton] at hcap ⊢
          split <;> omega
        · rename_i hcap
          simp only [List.length_append, List.length_singleton] at hcap
          have h3 := ih (links ++ [stripQuery (resolveHref a)]) (nf + 1)
          rw [if_pos (by simp only [List.length_append, List.length_singleton]; omega)] at h3
          rw [if_pos (by omega)]
          exact h3
    · rw [if_neg hm]
      split
      · rename_i hcap
        simp only [] at hcap ⊢
        split <;> omega
      · exact ih links nf

theorem scanPage_capped_stops (maxLinks : Nat) (a : String) (rest links : List String)
    (nf : Nat) (h : maxLinks ≤ links.length) :
    scanPage maxLinks (a :: rest) links nf = scanPage maxLinks [a] links nf := by
  simp only [scanPage]
  by_cases hm : matchesDetailPattern (resolveHref a) = true
  · rw [if_pos hm]
    by_cases hmem : stripQuery (resolveHref a) ∈ links
    · rw [if_pos hmem, if_pos (show maxLinks ≤ (links, nf).1.length from h),
        if_pos (show maxLinks ≤ (links, nf).1.length from h)]
    · rw [if_neg hmem,
        if_pos (show maxLinks ≤ (links ++ [stripQuery (resolveHref a)], nf + 1).1.length by
          simp only [List.length_append, List.length_singleton]; omega),
        if_pos (show maxLinks ≤ (links ++ [stripQuery (resolveHref a)], nf + 1).1.length by
          simp only [List.length_append, List.length_singleton]; omega)]
  · rw [if_neg hm, if_pos (show maxLinks ≤ (links, nf).1.length from h),
      if_pos (show maxLinks ≤ (links, nf).1.length from h)]

theorem getLinksGo_succ_none (fetch : Nat → Option (List String)) (maxLinks page fuel : Nat)
    (links : List String) (hfetch : fetch page = none) :
    getLinksGo fetch maxLinks page (fuel + 1) links = (links, 1) := by
  simp only [getLinksGo, hfetch]

theorem getLinksGo_succ_some (fetch : Nat → Option (List String)) (maxLinks page fuel : Nat)
    (links : List String) (anchors : List String) (hfetch : fetch page = some anchors) :
    getLinksGo fetch maxLinks page (fuel + 1) links =
      if (scanPage maxLinks anchors links 0).2 = 0 then
        ((scanPage maxLinks anchors links 0).1, 1)
      else
        ((getLinksGo fetch maxLinks (page + 1) fuel (scanPage maxLinks anchors links 0).1).1,
         (getLinksGo fetch maxLinks (page + 1) fuel
            (scanPage maxLinks anchors links 0).1).2 + 1) := by
  simp only [getLinksGo, hfetch]

theorem getLinksGo_len_le (fetch : Nat → Option (List String)) (maxLinks : Nat) :
    ∀ fuel page links, 0 < fuel →
      (getLinksGo fetch maxLinks page fuel links).1.length ≤
        max maxLinks (links.length + 1) + (fuel - 1) := by
  intro fuel
  induction fuel with
  | zero => intro page links h; omega
  | succ f ih =>
    intro page links _
    cases hfetch : fetch page with
    | none =>
      rw [getLinksGo_succ_none fetch maxLinks page f links hfetch]
      simp only []
      omega
    | some anchors =>
      rw [getLinksGo_succ_some fetch maxLinks page f links anchors hfetch]
      have hscan := scanPage_len_le maxLinks anchors links 0
      have hscan' : (scanPage maxLinks anchors links 0).1.length ≤
          max maxLinks (links.length + 1) := by
        split at hscan <;> omega
      split
      · simp only []
        omega
      · simp only []
        cases f with
        | zero =>
          simp only [getLinksGo]
          omega
        | succ f' =>
          have h2 := ih (page + 1) (scanPage maxLinks anchors links 0).1 (Nat.succ_pos _)
          have h3 : max maxLinks ((scanPage maxLinks anchors links 0).1.length + 1) ≤
              max maxLinks (links.length + 1) + 1 := by omega
          omega

/-- C4 counterexample: the cap is checked only after an anchor is processed,
so a page entered with the cap already reached still adds its first
qualifying anchor — with `maxPages = 2` and `maxLinks = 1`, two listing
pages of one fresh detail link each produce 2 links, exceeding the cap. -/
theorem claim_C4_link_cap_counterexample :
    (get_links
        (fun p => if p = 1 then some ["/a_1.htm"] else
          if p = 2 then some ["/b_2.htm"] else none)
        2 1).1.length = 2 := by
  decide

/-- C4 amended: scanning of the current listing page stops at the anchor at
which the running total has reached `maxLinks` — the cap is checked after
each anchor is processed, so a page begun at or above the cap can still
contribute one link — and hence the set returned by `discoverLinks` never
contains more than `max maxLinks 1 + (maxPages - 1)` links. -/
theorem claim_C4_link_cap_amended :
    (∀ maxLinks a rest links nf, maxLinks ≤ links.length →
      scanPage maxLinks (a :: rest) links nf = scanPage maxLinks [a] links nf) ∧
    (∀ maxLinks anchors links nf, links.length < maxLinks →
      (scanPage maxLinks anchors links nf).1.length ≤ maxLinks) ∧
    (∀ fetch maxPages maxLinks,
      (get_links fetch maxPages maxLinks).1.length ≤ max maxLinks 1 + (maxPages - 1)) := by
  refine ⟨fun maxLinks a rest links nf h => scanPage_capped_stops maxLinks a rest links nf h,
    ?_, ?_⟩
  · intro maxLinks anchors links nf h
    have := scanPage_len_le maxLinks anchors links nf
    rw [if_pos h] at this
    exact this
  · intro fetch maxPages maxLinks
    cases maxPages with
    | zero => simp [get_links, getLinksGo]
    | succ mp =>
      have h := getLinksGo_len_le fetch maxLinks (mp + 1) 1 [] (Nat.succ_pos _)
      simp only [List.length_nil] at h
      exact le_trans h (by omega)

/-- Witness for C4's amended theorem: the cap bound discharged on the
counterexample configuration (2 pages, cap 1: at most 2 links), and the
within-page cap conjunct discharged on the example page. -/
theorem claim_C4_link_cap_amended_witness :
    (get_links
        (fun p => if p = 1 then some ["/a_1.htm"] else
          if p = 2 then some ["/b_2.htm"] else none)
        2 1).1.length ≤ max 1 1 + (2 - 1) ∧
    (scanPage MAX_LINKS examplePageAnchors [] 0).1.length ≤ MAX_LINKS :=
  ⟨claim_C4_link_cap_amended.2.2
      (fun p => if p = 1 then some ["/a_1.htm"] else
        if p = 2 then some ["/b_2.htm"] else none) 2 1,
    claim_C4_link_cap_amended.2.1 MAX_LINKS examplePageAnchors [] 0 (by decide)⟩

/-- C9: if a fetched listing page contributes zero new links, discovery
stops immediately after that page: no further page is fetched, whatever the
remaining page budget.  On two consecutive one-anchor pages whose second
repeats the first's link, a run with `maxPages = 5` fetches exactly 2
pages. -/
theorem claim_C9_zero_growth_stop :
    (∀ (fetch : Nat → Option (List String)) (maxLinks page fuel : Nat)
        (links : List String) (anchors : List String),
      fetch page = some anchors →
      (scanPage maxLinks anchors links 0).2 = 0 →
      getLinksGo fetch maxLinks page (fuel + 1) links =
        ((scanPage maxLinks anchors links 0).1, 1)) ∧
    get_links
        (fun p => if p = 1 then some ["/x_1.htm"] else
          if p = 2 then some ["/x_1.htm"] else some ["/y_9.htm"])
        5 300 =
      (["https://www.avito.ma/x_1.htm"], 2) := by
  constructor
  · intro fetch maxLinks page fuel links anchors hfetch hzero
    simp only [getLinksGo, hfetch, hzero, if_pos]
  · decide

/-- Witness for C9: the zero-growth-stop conjunct discharged on the concrete
duplicate-page run, where the second page yields no new link. -/
theorem claim_C9_zero_growth_stop_witness :
    getLinksGo
        (fun p => if p = 1 then some ["/x_1.htm"] else
          if p = 2 then some ["/x_1.htm"] else some ["/y_9.htm"])
        300 2 (3 + 1) ["https://www.avito.ma/x_1.htm"] =
      ((scanPage 300 ["/x_1.htm"] ["https://www.avito.ma/x_1.htm"] 0).1, 1) :=
  claim_C9_zero_growth_stop.1
    (fun p => if p = 1 then some ["/x_1.htm"] else
      if p = 2 then some ["/x_1.htm"] else some ["/y_9.htm"])
    300 2 3 ["https://www.avito.ma/x_1.htm"] ["/x_1.htm"] (by decide) (by decide)

/-- C6 counterexample: the `keys` list of `save_csv` orders the middle
fields breadcrumb, category, seller, description, while §3 (and so the
claim) lists seller, category, description, breadcrumb — on a concrete
record the rows actually written differ from the §3-ordered rows. -/
theorem claim_C6_field_order_counterexample :
    csvKeys ≠ specFieldOrder ∧
      save_csv [sampleRec] ≠ [specFieldOrder, specRowValues sampleRec] := by
  decide

/-- C6 amended: every record handed to the persistence collaborator has
exactly the fixed 13-field set, each value a single text value (the
structured fields JSON-serialized), in the code's field order: identifier,
source URL, title, price, location, publication timestamp, breadcrumb,
category, seller, description, properties, equipments, images. -/
theorem claim_C6_field_order_amended :
    ∀ rows : List ListingRecord,
      save_csv rows = csvKeys :: rows.map (fun r =>
        [r.id, r.url, r.title, r.price, r.location, r.publication_time,
         jsonArr r.breadcrumb, r.category, r.seller, r.description,
         jsonObj r.properties, jsonArr r.equipments, jsonArr r.images]) ∧
      csvKeys.length = 13 := by
  intro rows
  refine ⟨?_, rfl⟩
  simp only [save_csv]
  have h : (fun r : ListingRecord => csvKeys.map (recordField r)) = fun r =>
      [r.id, r.url, r.title, r.price, r.location, r.publication_time,
       jsonArr r.breadcrumb, r.category, r.seller, r.description,
       jsonObj r.properties, jsonArr r.equipments, jsonArr r.images] := by
    funext r
    rfl
  rw [h]

/-- C7: record extraction is total with defaults — every document always
yields a record carrying the given fresh id and url, and a document missing
every optional marker yields the record whose other fields are all their
empty defaults, so only the generated id and the source url are nonempty. -/
theorem claim_C7_extraction_total_defaults :
    (∀ (fromIso : String → Option Int) (now : Int) (freshId url : String)
        (soup : Soup) (equips : List String),
      (parse_publication fromIso now freshId url soup equips).id = freshId ∧
        (parse_publication fromIso now freshId url soup equips).url = url ∧
        (parse_publication fromIso now freshId url soup equips).equipments = equips) ∧
    (∀ (fromIso : String → Option Int) (now : Int) (freshId url : String),
      parse_publication fromIso now freshId url emptySoup [] =
        { id := freshId, url := url, title := "", price := "", location := "",
          publication_time := "", seller := "", category := "", description := "",
          breadcrumb := [], properties := [], equipments := [], images := [] }) ∧
    (∀ (fromIso : String → Option Int) (now : Int) (freshId url : String),
      freshId ≠ "" → url ≠ "" →
      (parse_publication fromIso now freshId url emptySoup []).id ≠ "" ∧
        (parse_publication fromIso now freshId url emptySoup []).url ≠ "") := by
  refine ⟨fun fromIso now freshId url soup equips => ⟨rfl, rfl, rfl⟩,
    fun fromIso now freshId url => rfl, ?_⟩
  intro fromIso now freshId url hid hurl
  exact ⟨hid, hurl⟩

/-- Witness for C7: the empty-document conjuncts discharged at concrete
nonempty id and url. -/
theorem claim_C7_extraction_total_defaults_witness :
    (parse_publication (fun _ => none) 0 "x" "u" emptySoup []).id ≠ "" ∧
      (parse_publication (fun _ => none) 0 "x" "u" emptySoup []).url ≠ "" :=
  claim_C7_extraction_total_defaults.2.2 (fun _ => none) 0 "x" "u" (by decide) (by decide)

/-- C8: the relative-time fallback extracts the first integer (1 if absent)
and tests the unit substrings in the exact order minute, heure, jour, mois
(30·N days), an (365·N days), the first match winning; with no match the
normalized lower-cased text is returned verbatim.  `"il y a 3 jours"` at
now = 2024-02-01 00:00:00 resolves to `"2024-01-29 00:00:00"`; `"hier"`
comes back unchanged. -/
theorem claim_C8_relative_fallback :
    (∀ (fromIso : String → Option Int) (now : Int) (txt : String),
      parse_publication_date fromIso now (some { datetimeAttr := none, text := txt }) =
        relative_fallback now txt) ∧
    (∀ (now : Int) (raw : String),
      let text := pyLower (clean_text (some raw))
      let n : Int := Int.ofNat ((firstNat text).getD 1)
      (containsStr text "minute" = true →
        relative_fallback now raw = fmtOrText text (now - n * 60)) ∧
      (containsStr text "minute" = false → containsStr text "heure" = true →
        relative_fallback now raw = fmtOrText text (now - n * 3600)) ∧
      (containsStr text "minute" = false → containsStr text "heure" = false →
        containsStr text "jour" = true →
        relative_fallback now raw = fmtOrText text (now - n * 86400)) ∧
      (containsStr text "minute" = false → containsStr text "heure" = false →
        containsStr text "jour" = false → containsStr text "mois" = true →
        relative_fallback now raw = fmtOrText text (now - n * 30 * 86400)) ∧
      (containsStr text "minute" = false → containsStr text "heure" = false →
        containsStr text "jour" = false → containsStr text "mois" = false →
        containsStr text "an" = true →
        relative_fallback now raw = fmtOrText text (now - n * 365 * 86400)) ∧
      (containsStr text "minute" = false → containsStr text "heure" = false →
        containsStr text "jour" = false → containsStr text "mois" = false →
        containsStr text "an" = false → relative_fallback now raw = text)) ∧
    relative_fallback (secondsOfCivil 2024 2 1 0 0 0) "il y a 3 jours" =
      "2024-01-29 00:00:00" ∧
    (∀ now : Int, relative_fallback now "hier" = "hier") := by
  refine ⟨fun fromIso now txt => rfl, ?_, by decide, fun now => rfl⟩
  intro now raw
  refine ⟨?_, ?_, ?_, ?_, ?_, ?_⟩
  · intro h1
    simp only [relative_fallback, h1, if_true]
  · intro h1 h2
    simp only [relative_fallback, h1, h2, if_true, if_false, Bool.false_eq_true]
  · intro h1 h2 h3
    simp only [relative_fallback, h1, h2, h3, if_true, if_false, Bool.false_eq_true]
  · intro h1 h2 h3 h4
    simp only [relative_fallback, h1, h2, h3, h4, if_true, if_false, Bool.false_eq_true]
  · intro h1 h2 h3 h4 h5
    simp only [relative_fallback, h1, h2, h3, h4, h5, if_true, if_false, Bool.false_eq_true]
  · intro h1 h2 h3 h4 h5
    simp only [relative_fallback, h1, h2, h3, h4, h5, if_true, if_false, Bool.false_eq_true]

/-- Witness for C8: the jour-branch conjunct discharged on the concrete
text `"il y a 3 jours"`. -/
theorem claim_C8_relative_fallback_witness :
    relative_fallback (secondsOfCivil 2024 2 1 0 0 0) "il y a 3 jours" =
      fmtOrText (pyLower (clean_text (some "il y a 3 jours")))
        (secondsOfCivil 2024 2 1 0 0 0 -
          Int.ofNat ((firstNat (pyLower (clean_text (some "il y a 3 jours")))).getD 1)
            * 86400) :=
  (claim_C8_relative_fallback.2.1 (secondsOfCivil 2024 2 1 0 0 0) "il y a 3 jours").2.2.1
    (by decide) (by decide) (by decide)

theorem collapse_space_mem :
    ∀ l : List Char, ∀ c ∈ collapseWS l, pyIsSpace c = true → c = ' ' := by
  intro l
  induction l with
  | nil => intro c hc; cases hc
  | cons a t ih =>
    cases t with
    | nil =>
      intro c hc hsp
      simp only [collapseWS] at hc
      split at hc
      · rcases List.mem_singleton.1 hc with rfl; rfl
      · rcases List.mem_singleton.1 hc with rfl
        rename_i ha
        exact absurd hsp (by simpa using ha)
    | cons b t2 =>
      intro c hc hsp
      simp only [collapseWS] at hc
      split at hc
      · split at hc
        · exact ih c hc hsp
        · rcases List.mem_cons.1 hc with rfl | hc2
          · rfl
          · exact ih c hc2 hsp
      · rcases List.mem_cons.1 hc with rfl | hc2
        · rename_i ha
          exact absurd hsp (by simpa using ha)
        · exact ih c hc2 hsp

theorem collapse_head_of_not_space (c : Char) (t : List Char) (h : pyIsSpace c = false) :
    (collapseWS (c :: t)).head? = some c := by
  cases t with
  | nil => simp [collapseWS, h]
  | cons b t2 => simp [collapseWS, h]

theorem collapse_chain :
    ∀ l : List Char,
      List.Chain' (fun a b : Char => pyIsSpace a = false ∨ pyIsSpace b = false)
        (collapseWS l) := by
  intro l
  induction l with
  | nil => exact List.chain'_nil
  | cons a t ih =>
    cases t with
    | nil =>
      simp only [collapseWS]
      split <;> exact List.chain'_singleton _
    | cons b t2 =>
      simp only [collapseWS]
      by_cases ha : pyIsSpace a = true
      · rw [if_pos ha]
        by_cases hb : pyIsSpace b = true
        · rw [if_pos hb]; exact ih
        · rw [if_neg hb]
          rw [List.chain'_cons']
          refine ⟨?_, ih⟩
          intro y hy
          rw [collapse_head_of_not_space b t2 (by simpa using hb)] at hy
          rcases Option.mem_some_iff.1 hy with rfl
          exact Or.inr (by simpa using hb)
      · rw [if_neg ha]
        rw [List.chain'_cons']
        exact ⟨fun y _ => Or.inl (by simpa using ha), ih⟩

theorem collapse_fix (m : List Char)
    (hmem : ∀ c ∈ m, pyIsSpace c = true → c = ' ')
    (hchain : List.Chain' (fun a b : Char => pyIsSpace a = false ∨ pyIsSpace b = false) m) :
    collapseWS m = m := by
  induction m with
  | nil => rfl
  | cons a t ih =>
    cases t with
    | nil =>
      simp only [collapseWS]
      split
      · rename_i ha
        rw [hmem a (List.mem_singleton_self a) ha]
      · rfl
    | cons b t2 =>
      rw [List.chain'_cons] at hchain
      obtain ⟨hab, hchain2⟩ := hchain
      have ih2 := ih (fun c hc => hmem c (List.mem_cons_of_mem a hc)) hchain2
      simp only [collapseWS]
      by_cases ha : pyIsSpace a = true
      · rw [if_pos ha]
        have hb : pyIsSpace b = false := by
          rcases hab with h | h
          · rw [ha] at h; cases h
          · exact h
        rw [if_neg (by simp [hb])]
        rw [ih2, hmem a (List.mem_cons_self a _) ha]
      · rw [if_neg ha, ih2]

theorem head_dropWhile_not_space :
    ∀ l : List Char, ∀ c, ((l.dropWhile pyIsSpace).head? = some c) → pyIsSpace c = false := by
  intro l
  induction l with
  | nil => intro c h; cases h
  | cons a t ih =>
    intro c h
    rw [List.dropWhile_cons] at h
    split at h
    · exact ih c h
    · rename_i ha
      rcases Option.some_inj.1 h with rfl
      simpa using ha

theorem strip_mem (l : List Char) (c : Char) (h : c ∈ stripList l) : c ∈ l := by
  unfold stripList at h
  rw [List.mem_reverse] at h
  have h2 : c ∈ (l.dropWhile pyIsSpace).reverse :=
    (List.dropWhile_sublist pyIsSpace).subset h
  rw [List.mem_reverse] at h2
  exact (List.dropWhile_sublist pyIsSpace).subset h2

theorem chain'_dropWhile {R : Char → Char → Prop} (p : Char → Bool) (l : List Char)
    (h : List.Chain' R l) : List.Chain' R (l.dropWhile p) := by
  rw [← List.takeWhile_append_dropWhile p l] at h
  exact (List.chain'_append.1 h).2.1

theorem chain'_reverse_noTwo (l : List Char)
    (h : List.Chain' (fun a b : Char => pyIsSpace a = false ∨ pyIsSpace b = false) l) :
    List.Chain' (fun a b : Char => pyIsSpace a = false ∨ pyIsSpace b = false) l.reverse := by
  rw [List.chain'_reverse]
  exact h.imp (fun a b hab => hab.symm)

theorem strip_chain (l : List Char)
    (h : List.Chain' (fun a b : Char => pyIsSpace a = false ∨ pyIsSpace b = false) l) :
    List.Chain' (fun a b : Char => pyIsSpace a = false ∨ pyIsSpace b = false)
      (stripList l) := by
  unfold stripList
  exact chain'_reverse_noTwo _ (chain'_dropWhile _ _ (chain'_reverse_noTwo _
    (chain'_dropWhile _ _ h)))

theorem strip_head_not (l : List Char) (c : Char) (h : (stripList l).head? = some c) :
    pyIsSpace c = false := by
  have hsplit := List.takeWhile_append_dropWhile pyIsSpace (l.dropWhile pyIsSpace).reverse
  have hrepr : l.dropWhile pyIsSpace =
      stripList l ++ ((l.dropWhile pyIsSpace).reverse.takeWhile pyIsSpace).reverse := by
    unfold stripList
    rw [← List.reverse_append, hsplit, List.reverse_reverse]
  have hhead : (l.dropWhile pyIsSpace).head? = some c := by
    rw [hrepr, List.head?_append, h]
    rfl
  exact head_dropWhile_not_space l c hhead

theorem strip_last_not (l : List Char) (c : Char) (h : (stripList l).getLast? = some c) :
    pyIsSpace c = false := by
  unfold stripList at h
  rw [List.getLast?_reverse] at h
  exact head_dropWhile_not_space _ c h

theorem strip_fix (m : List Char)
    (hhead : ∀ c, m.head? = some c → pyIsSpace c = false)
    (hlast : ∀ c, m.getLast? = some c → pyIsSpace c = false) :
    stripList m = m := by
  have h1 : m.dropWhile pyIsSpace = m := by
    cases m with
    | nil => rfl
    | cons a t =>
      rw [List.dropWhile_cons, if_neg]
      simp [hhead a rfl]
  have h2 : m.reverse.dropWhile pyIsSpace = m.reverse := by
    cases hm : m.reverse with
    | nil => rfl
    | cons a t =>
      have hla : m.getLast? = some a := by
        rw [← List.head?_reverse, hm]
        rfl
      rw [List.dropWhile_cons, if_neg]
      simp [hlast a hla]
  unfold stripList
  rw [h1, h2, List.reverse_reverse]

theorem map_replNRT_fix (m : List Char) (h : ∀ c ∈ m, pyIsSpace c = true → c = ' ') :
    m.map replNRT = m := by
  induction m with
  | nil => rfl
  | cons a t ih =>
    simp only [List.map_cons]
    have ha : replNRT a = a := by
      unfold replNRT
      split
      · rename_i hnrt
        simp only [Bool.or_eq_true, decide_eq_true_eq] at hnrt
        have hsp : pyIsSpace a = true := by
          rcases hnrt with (h1 | h1) | h1 <;> subst h1 <;> decide
        exact (h a (List.mem_cons_self a t) hsp).symm
      · rfl
    rw [ha, ih (fun c hc => h c (List.mem_cons_of_mem a hc))]

theorem clean_pipeline_idem (l : List Char) :
    stripList (collapseWS ((stripList (collapseWS (l.map replNRT))).map replNRT)) =
      stripList (collapseWS (l.map replNRT)) := by
  have hmem : ∀ c ∈ stripList (collapseWS (l.map replNRT)), pyIsSpace c = true → c = ' ' :=
    fun c hc => collapse_space_mem _ c (strip_mem _ c hc)
  have hchain := strip_chain _ (collapse_chain (l.map replNRT))
  rw [map_replNRT_fix _ hmem, collapse_fix _ hmem hchain,
    strip_fix _ (fun c h => strip_head_not _ c h) (fun c h => strip_last_not _ c h)]

/-- C10: the text normalizer is a pure total function: it is idempotent,
maps the empty string and an absent (`None`) input to the empty string, and
(concretely) replaces newline/carriage-return/tab by spaces, collapses
whitespace runs, and trims the ends. -/
theorem claim_C10_normalizer_idempotent :
    (∀ x : Option String, clean_text (some (clean_text x)) = clean_text x) ∧
      clean_text (some "") = "" ∧
      clean_text none = "" ∧
      clean_text (some "  a\n\r b\tc  ") = "a b c" := by
  refine ⟨?_, rfl, rfl, by decide⟩
  intro x
  cases x with
  | none => rfl
  | some v =>
    by_cases hv : v = ""
    · subst hv; rfl
    · have hcv : clean_text (some v) =
          String.mk (stripList (collapseWS (v.data.map replNRT))) := by
        simp only [clean_text, if_neg hv]
      rw [hcv]
      by_cases hy : String.mk (stripList (collapseWS (v.data.map replNRT))) = ""
      · rw [hy]
        rfl
      · simp only [clean_text, if_neg hy]
        exact congrArg String.mk (clean_pipeline_idem v.data)

end Avito
